import Mathlib

/-!
Verification of the GiveawayTracker server (src/server/index.js).

The file shallowly embeds the in-memory giveaway state, the chat-message
handler and the POST command handlers of the server, and proves the
specification claims about them.  Wall-clock instants (`Date.now()`) are
modelled as `Nat` milliseconds passed explicitly to each handler; the
pseudo-random draw of `roll`/`reroll` is modelled by an explicit index
argument; the outcome of each webhook fetch attempt is an explicit `Bool`.
-/

namespace Giveaway

/-- A buffered chat line, `{ text, at }` of the `recentMsgs` map. -/
structure Msg where
  text : String
  at_ : Nat
deriving DecidableEq

/-- `state.pendingWinner`, `{ user, gid }`. -/
structure PendingW where
  user : String
  gid : String
deriving DecidableEq

/-- One `state.history` entry, `{ winner, gid, at_ }`. -/
structure HistEntry where
  winner : String
  gid : String
  at_ : Nat
deriving DecidableEq

/-- The mutable giveaway state object `state` of the server
(`open`, `keyword`, `entrants`, `pendingWinner`, `history`).
A JS `Set` iterates in insertion order, so `entrants` is an
insertion-ordered duplicate-free list. -/
structure ServerState where
  openFlag : Bool
  keyword : String
  entrants : List String
  pendingWinner : Option PendingW
  history : List HistEntry
deriving DecidableEq

/-- `MSG_KEEP_MS = 5 * 60 * 1000`: keep the last 5 minutes of messages. -/
def MSG_KEEP_MS : Nat := 5 * 60 * 1000

/-- `MAX_PER_USER = 50`: cap of buffered messages per user. -/
def MAX_PER_USER : Nat := 50

/-- `MAX_ENTRANTS = 7500`: hard cap on unique entrants. -/
def MAX_ENTRANTS : Nat := 7500

/-- The initial value of `state`. -/
def initState : ServerState :=
  { openFlag := false
    keyword := "yo"
    entrants := []
    pendingWinner := none
    history := [] }

/-- The `recentMsgs` map, username to buffered lines; a missing key reads
as the empty buffer (`recentMsgs.get(display) || []`). -/
abbrev RecentMsgs := String → List Msg

/-- The initially empty `recentMsgs` map. -/
def initRecent : RecentMsgs := fun _ => []

/-- `Set.add`: appends the element unless already present. -/
def setAdd (l : List String) (x : String) : List String :=
  if l.contains x then l else l ++ [x]

/-- The JS `String.prototype.trim()`: strips leading and trailing
whitespace.  Stated over the character list so that it evaluates by
kernel reduction. -/
def jsTrim (s : String) : String :=
  ⟨((s.data.dropWhile Char.isWhitespace).reverse.dropWhile Char.isWhitespace).reverse⟩

/-- The JS `String.prototype.toLowerCase()` on the ASCII range:
lowercases every character. -/
def jsToLower (s : String) : String :=
  ⟨s.data.map Char.toLower⟩

/-- The loop `while (arr.length > cap) arr.shift()`. -/
def trimLen (cap : Nat) : List Msg → List Msg
  | [] => []
  | x :: xs => if xs.length + 1 > cap then trimLen cap xs else x :: xs

/-- The loop `while (arr.length && (now - arr[0].at) > keep) arr.shift()`. -/
def trimAge (now keep : Nat) : List Msg → List Msg
  | [] => []
  | x :: xs => if now - x.at_ > keep then trimAge now keep xs else x :: xs

/-- The `client.on` message handler (for a non-self message): admits the
sender to `entrants` while the round is open and the trimmed message
case-insensitively equals the keyword (subject to the capacity test), then
appends the line to the sender's `recentMsgs` buffer and trims it. -/
def handleMessage (s : ServerState) (rm : RecentMsgs) (displayRaw msgRaw : String)
    (now : Nat) : ServerState × RecentMsgs :=
  let display := jsTrim displayRaw
  let text := jsTrim msgRaw
  let lower := jsToLower text
  let s' :=
    if s.openFlag && (lower == jsToLower s.keyword) then
      if s.entrants.length < MAX_ENTRANTS || s.entrants.contains display then
        { s with entrants := setAdd s.entrants display }
      else s
    else s
  let arr := rm display ++ [{ text := text, at_ := now }]
  let arr := trimLen MAX_PER_USER arr
  let arr := trimAge now MSG_KEEP_MS arr
  (s', fun u => if u = display then arr else rm u)

/-- Outcome of a POST handler: the JSON response, or the handler's promise
rejecting (an uncaught `throw` escaping the handler). -/
inductive Resp where
  | ok (winner : Option String)
  | err (msg : String)
  | thrown
deriving DecidableEq

/-- `newGid()`, i.e. `Date.now().toString()`. -/
def newGid (now : Nat) : String := toString now

/-- The `/start` handler: opens the round, sets the keyword
(`String(keyword || 'yo')`), resets the entrants and clears the pending
winner.  The `setTimeout` close it schedules is the separate `timerFire`. -/
def start (s : ServerState) (keyword : String) : Resp × ServerState :=
  let kw := if keyword = "" then "yo" else keyword
  (.ok none,
   { s with openFlag := true, keyword := kw, entrants := [], pendingWinner := none })

/-- The `setTimeout` callback scheduled by `/start`:
`() => { state.open = false; }`. -/
def timerFire (s : ServerState) : ServerState :=
  { s with openFlag := false }

/-- The `/roll` handler: rejects while the round is open, rejects when
there are no entrants, otherwise installs a pending winner picked at the
given random index with a fresh gid. -/
def roll (s : ServerState) (r now : Nat) : Resp × ServerState :=
  if s.openFlag then (.err "Giveaway still open.", s)
  else
    let arr := s.entrants
    if arr.length = 0 then (.err "No entrants.", s)
    else
      let pick := arr.getD (r % arr.length) ""
      (.ok (some pick), { s with pendingWinner := some { user := pick, gid := newGid now } })

/-- The `/cancel` handler: clears the pending winner. -/
def cancel (s : ServerState) : Resp × ServerState :=
  (.ok none, { s with pendingWinner := none })

/-- The `/reroll` handler: like `/roll` but with no open-round check. -/
def reroll (s : ServerState) (r now : Nat) : Resp × ServerState :=
  let arr := s.entrants
  if arr.length = 0 then (.err "No entrants.", s)
  else
    let pick := arr.getD (r % arr.length)  ""
    (.ok (some pick), { s with pendingWinner := some { user := pick, gid := newGid now } })

/-- The backoff table `attempts = [500, 1000, 2000]` of `logToSheet`. -/
def attemptDelays : List Nat := [500, 1000, 2000]

/-- Whether `logToSheet` returns normally: it loops over the attempt
table, returning on the first fetch attempt that succeeds, and throws
`Failed to log to sheet after retries` after the loop; each attempt's
outcome is an explicit `Bool`. -/
def logToSheetOk (outcomes : List Bool) : Bool :=
  (outcomes.take attemptDelays.length).any (fun o => o)

/-- The winner context string built by `/confirm`: texts of the winner's
buffered lines at most `MSG_KEEP_MS` old, last 10, joined by a bar. -/
def winnerMsgs (rm : RecentMsgs) (picked : String) (now : Nat) : String :=
  let msgs := ((rm picked).filter (fun m => now - m.at_ ≤ MSG_KEEP_MS)).map (fun m => m.text)
  String.intercalate " | " (msgs.drop (msgs.length - 10))

/-- The `/confirm` handler: resolves the winner (`winner ||
state.pendingWinner?.user`; the empty string is the falsy absent
argument), rejects when none resolves, awaits `logToSheet` (whose
persistent failure throws out of the handler before any state change),
then pushes the history entry tagged `state.pendingWinner?.gid ||
newGid()`, caps the history at 50 and clears the pending winner. -/
def confirm (s : ServerState) (rm : RecentMsgs) (winner : String) (now : Nat)
    (outcomes : List Bool) : Resp × ServerState :=
  let picked := if winner ≠ "" then some winner else s.pendingWinner.map (fun pw => pw.user)
  match picked with
  | none => (.err "No winner to confirm.", s)
  | some p =>
    if logToSheetOk outcomes then
      let gid := match s.pendingWinner with
        | some pw => pw.gid
        | none => newGid now
      let hist := ({ winner := p, gid := gid, at_ := now } : HistEntry) :: s.history
      let hist := if hist.length > 50 then hist.dropLast else hist
      (.ok none, { s with history := hist, pendingWinner := none })
    else (.thrown, s)

/-- The POST routes the server registers, in registration order. -/
def postRoutes : List String :=
  ["/start", "/roll", "/cancel", "/reroll", "/confirm"]

/-- One inbound event of the process: a chat message or one of the
operator commands (plus the timer close scheduled by `/start`). -/
inductive Ev where
  | chat (display msg : String) (t : Nat)
  | startCmd (keyword : String)
  | timer
  | rollCmd (r now : Nat)
  | rerollCmd (r now : Nat)
  | cancelCmd
  | confirmCmd (winner : String) (now : Nat) (outcomes : List Bool)

/-- One step of the process: dispatches an event to its handler.  Only
chat events touch `recentMsgs`. -/
def stepFull : ServerState × RecentMsgs → Ev → ServerState × RecentMsgs
  | (s, rm), .chat d m t => handleMessage s rm d m t
  | (s, rm), .startCmd k => ((start s k).2, rm)
  | (s, rm), .timer => (timerFire s, rm)
  | (s, rm), .rollCmd r now => ((roll s r now).2, rm)
  | (s, rm), .rerollCmd r now => ((reroll s r now).2, rm)
  | (s, rm), .cancelCmd => ((cancel s).2, rm)
  | (s, rm), .confirmCmd w now outs => ((confirm s rm w now outs).2, rm)

/-- Runs a trace of events. -/
def runFull (p : ServerState × RecentMsgs) (evs : List Ev) : ServerState × RecentMsgs :=
  evs.foldl stepFull p

/-- The round tokens an event issues: the gid of the pending winner a
successful roll or reroll installs. -/
def evTokens (s : ServerState) : Ev → List String
  | .rollCmd r now =>
    match roll s r now with
    | (.ok _, s2) => (s2.pendingWinner.map (fun pw => pw.gid)).toList
    | _ => []
  | .rerollCmd r now =>
    match reroll s r now with
    | (.ok _, s2) => (s2.pendingWinner.map (fun pw => pw.gid)).toList
    | _ => []
  | _ => []

/-- The timestamps at which an event successfully rolls. -/
def evTimes (s : ServerState) : Ev → List Nat
  | .rollCmd _ now =>
    if s.openFlag then [] else if s.entrants.length = 0 then [] else [now]
  | .rerollCmd _ now =>
    if s.entrants.length = 0 then [] else [now]
  | _ => []

/-- All round tokens issued along a trace, in order. -/
def issuedTokens : ServerState × RecentMsgs → List Ev → List String
  | _, [] => []
  | p, ev :: evs => evTokens p.1 ev ++ issuedTokens (stepFull p ev) evs

/-- All timestamps of successful rolls along a trace, in order. -/
def rollTimes : ServerState × RecentMsgs → List Ev → List Nat
  | _, [] => []
  | p, ev :: evs => evTimes p.1 ev ++ rollTimes (stepFull p ev) evs

/-- Modelled from the spec: the `SessionLedger` component (session-total
accounting with idempotent bumps) is not part of `src/server/index.js` —
the running total of confirmed amounts is kept by the external Apps
Script ledger behind the webhook.  Following spec section 4.3: a ledger is
a process-lifetime `total` plus the set of dedupe tokens already seen. -/
structure SessionLedger where
  total : Int
  seen : List String
deriving DecidableEq

/-- Modelled from the spec: `bump(amount, dedupeToken)` — a bump whose
token was seen before returns the ledger unchanged (deduplicated no-op);
otherwise it adds `amount` to `total` and records the token; a bump with
no token is always applied. -/
def SessionLedger.bump (l : SessionLedger) (amount : Int) (token : Option String) :
    SessionLedger :=
  match token with
  | none => { l with total := l.total + amount }
  | some t =>
    if l.seen.contains t then l
    else { total := l.total + amount, seen := t :: l.seen }

/-- A closed round with one entrant (used as a concrete test state). -/
def oneEntrantS : ServerState :=
  { openFlag := false, keyword := "yo", entrants := ["alice"], pendingWinner := none
    history := [] }

/-- An open round with one entrant (used as a concrete test state). -/
def openRoundS : ServerState :=
  { openFlag := true, keyword := "yo", entrants := ["alice"], pendingWinner := none
    history := [] }

/-- A closed round with a pending winner awaiting confirmation (used as a
concrete test state). -/
def pendingS : ServerState :=
  { openFlag := false, keyword := "yo", entrants := ["alice", "bob"]
    pendingWinner := some { user := "alice", gid := "1" }, history := [] }

/-! ## Helper lemmas -/

theorem setAdd_length_of_mem (l : List String) (x : String)
    (h : x ∈ l) : (setAdd l x).length = l.length := by
  simp [setAdd, h]

theorem setAdd_length_of_not_mem (l : List String) (x : String)
    (h : x ∉ l) : (setAdd l x).length = l.length + 1 := by
  simp [setAdd, h]

theorem mem_setAdd (l : List String) (x y : String) (h : y ∈ l) : y ∈ setAdd l x := by
  unfold setAdd; split <;> simp [h]

theorem trimLen_length_le (cap : Nat) (l : List Msg) : (trimLen cap l).length ≤ cap := by
  induction l with
  | nil => simp [trimLen]
  | cons x xs ih =>
    rw [trimLen]
    split
    · exact ih
    · simp only [List.length_cons]; omega

theorem trimLen_suffix (cap : Nat) (l : List Msg) : trimLen cap l <:+ l := by
  induction l with
  | nil => simp [trimLen]
  | cons x xs ih =>
    rw [trimLen]
    split
    · exact ih.trans (List.suffix_cons x xs)
    · exact List.suffix_refl _

theorem trimAge_suffix (now keep : Nat) (l : List Msg) : trimAge now keep l <:+ l := by
  induction l with
  | nil => simp [trimAge]
  | cons x xs ih =>
    rw [trimAge]
    split
    · exact ih.trans (List.suffix_cons x xs)
    · exact List.suffix_refl _

theorem trimAge_age (now keep : Nat) (l : List Msg)
    (h : l.Pairwise (fun a b => a.at_ ≤ b.at_)) :
    ∀ m ∈ trimAge now keep l, now - m.at_ ≤ keep := by
  induction l with
  | nil => simp [trimAge]
  | cons x xs ih =>
    rw [trimAge]
    rcases List.pairwise_cons.1 h with ⟨hx, hxs⟩
    split
    · exact ih hxs
    · intro m hm
      rcases List.mem_cons.1 hm with hm | hm
      · subst hm; omega
      · have := hx m hm; omega

theorem pairwise_append_last (l : List Msg) (x : Msg)
    (hs : l.Pairwise (fun a b => a.at_ ≤ b.at_)) (hb : ∀ m ∈ l, m.at_ ≤ x.at_) :
    (l ++ [x]).Pairwise (fun a b => a.at_ ≤ b.at_) := by
  rw [List.pairwise_append]
  exact ⟨hs, List.pairwise_singleton _ _, by simpa using hb⟩

theorem head?_cap50 (x : HistEntry) (l : List HistEntry) :
    (if (x :: l).length > 50 then (x :: l).dropLast else x :: l).head? = some x := by
  split
  · match l with
    | [] => simp at *
    | y :: l' => simp [List.dropLast]
  · simp

theorem handleMessage_entrants_le (s : ServerState) (rm : RecentMsgs) (d m : String)
    (now : Nat) (h : s.entrants.length ≤ MAX_ENTRANTS) :
    (handleMessage s rm d m now).1.entrants.length ≤ MAX_ENTRANTS := by
  unfold handleMessage
  dsimp only
  split
  · split
    · rename_i hcond
      by_cases hc : jsTrim d ∈ s.entrants
      · simpa [setAdd_length_of_mem _ _ hc] using h
      · have hlt : s.entrants.length < MAX_ENTRANTS := by
          simp [hc] at hcond
          exact hcond
        rw [setAdd_length_of_not_mem _ _ hc]
        omega
    · exact h
  · exact h

theorem roll_entrants (s : ServerState) (r now : Nat) :
    (roll s r now).2.entrants = s.entrants := by
  unfold roll; dsimp only
  split
  · rfl
  · split <;> rfl

theorem reroll_entrants (s : ServerState) (r now : Nat) :
    (reroll s r now).2.entrants = s.entrants := by
  unfold reroll; dsimp only
  split <;> rfl

theorem confirm_entrants (s : ServerState) (rm : RecentMsgs) (w : String) (now : Nat)
    (outs : List Bool) : (confirm s rm w now outs).2.entrants = s.entrants := by
  unfold confirm; dsimp only
  split
  · rfl
  · split <;> rfl

theorem stepFull_entrants_le (p : ServerState × RecentMsgs) (ev : Ev)
    (h : p.1.entrants.length ≤ MAX_ENTRANTS) :
    (stepFull p ev).1.entrants.length ≤ MAX_ENTRANTS := by
  obtain ⟨s, rm⟩ := p
  cases ev with
  | chat d m t => exact handleMessage_entrants_le s rm d m t h
  | startCmd k => simp [stepFull, start, MAX_ENTRANTS]
  | timer => simpa [stepFull, timerFire] using h
  | rollCmd r now => simpa [stepFull, roll_entrants] using h
  | rerollCmd r now => simpa [stepFull, reroll_entrants] using h
  | cancelCmd => simpa [stepFull, cancel] using h
  | confirmCmd w now outs => simpa [stepFull, confirm_entrants] using h

theorem runFull_cons (p : ServerState × RecentMsgs) (ev : Ev) (evs : List Ev) :
    runFull p (ev :: evs) = runFull (stepFull p ev) evs := rfl

theorem runFull_entrants_le (evs : List Ev) :
    ∀ p : ServerState × RecentMsgs, p.1.entrants.length ≤ MAX_ENTRANTS →
      (runFull p evs).1.entrants.length ≤ MAX_ENTRANTS := by
  induction evs with
  | nil => intro p h; exact h
  | cons ev evs ih =>
    intro p h
    rw [runFull_cons]
    exact ih _ (stepFull_entrants_le p ev h)

/-! ## Injectivity of the decimal gid

`newGid` is `Date.now().toString()`; to reason about token freshness we
prove that the decimal rendering of a natural number is injective. -/

/-- Decimal digits of `n`, most significant first (the structural
counterpart of core's fuelled `Nat.toDigitsCore`). -/
def repDigits (n : Nat) : List Char :=
  if n < 10 then [Nat.digitChar n]
  else repDigits (n / 10) ++ [Nat.digitChar (n % 10)]
decreasing_by exact Nat.div_lt_self (by omega) (by omega)

theorem toDigitsCore_eq_repDigits (fuel : Nat) :
    ∀ (n : Nat) (acc : List Char), n < fuel →
      Nat.toDigitsCore 10 fuel n acc = repDigits n ++ acc := by
  induction fuel with
  | zero => omega
  | succ f ih =>
    intro n acc h
    rw [Nat.toDigitsCore]
    by_cases h10 : n / 10 = 0
    · have hn : n < 10 := (Nat.div_eq_zero_iff (by omega)).1 h10
      rw [if_pos h10, repDigits]
      simp [hn, Nat.mod_eq_of_lt hn]
    · have hge : 10 ≤ n := by
        by_contra hv
        exact h10 ((Nat.div_eq_zero_iff (by omega)).2 (by omega))
      have hdiv : n / 10 < n := Nat.div_lt_self (by omega) (by omega)
      rw [if_neg h10, ih (n / 10) _ (by omega)]
      conv_rhs => rw [repDigits]
      rw [if_neg (by omega)]
      simp

theorem repDigits_def (n : Nat) :
    repDigits n =
      if n < 10 then [Nat.digitChar n]
      else repDigits (n / 10) ++ [Nat.digitChar (n % 10)] := by
  conv_lhs => rw [repDigits]

theorem repDigits_ne_nil (n : Nat) : repDigits n ≠ [] := by
  rw [repDigits_def]
  split <;> simp

theorem digitChar_inj_lt : ∀ m < 10, ∀ n < 10, Nat.digitChar m = Nat.digitChar n → m = n := by
  decide

theorem repDigits_inj (m : Nat) :
    ∀ n : Nat, repDigits m = repDigits n → m = n := by
  induction m using Nat.strong_induction_on with
  | _ m ih =>
    intro n h
    rw [repDigits_def m, repDigits_def n] at h
    by_cases hm : m < 10 <;> by_cases hn : n < 10
    · rw [if_pos hm, if_pos hn] at h
      exact digitChar_inj_lt m hm n hn (by simpa using h)
    · rw [if_pos hm, if_neg hn] at h
      have := congrArg List.length h
      have hpos := List.length_pos.2 (repDigits_ne_nil (n / 10))
      simp only [List.length_append, List.length_singleton, List.length_cons,
        List.length_nil] at this
      omega
    · rw [if_neg hm, if_pos hn] at h
      have := congrArg List.length h
      have hpos := List.length_pos.2 (repDigits_ne_nil (m / 10))
      simp only [List.length_append, List.length_singleton, List.length_cons,
        List.length_nil] at this
      omega
    · rw [if_neg hm, if_neg hn] at h
      have hlen : (repDigits (m / 10)).length = (repDigits (n / 10)).length := by
        have := congrArg List.length h
        simp at this
        omega
      rcases List.append_inj h hlen with ⟨hinit, hlast⟩
      have hdiv : m / 10 = n / 10 :=
        ih (m / 10) (Nat.div_lt_self (by omega) (by omega)) (n / 10) hinit
      have hmod : m % 10 = n % 10 :=
        digitChar_inj_lt (m % 10) (Nat.mod_lt _ (by omega)) (n % 10) (Nat.mod_lt _ (by omega))
          (by simpa using hlast)
      omega

theorem natRepr_inj (m n : Nat) (h : Nat.repr m = Nat.repr n) : m = n := by
  unfold Nat.repr Nat.toDigits at h
  rw [toDigitsCore_eq_repDigits (m + 1) m [] (by omega),
      toDigitsCore_eq_repDigits (n + 1) n [] (by omega)] at h
  simp only [List.append_nil] at h
  exact repDigits_inj m n (congrArg String.data h)

theorem newGid_inj (a b : Nat) (h : newGid a = newGid b) : a = b :=
  natRepr_inj a b h

/-! ## Issued tokens along a trace -/

theorem evTokens_eq_map (s : ServerState) (ev : Ev) :
    evTokens s ev = (evTimes s ev).map newGid := by
  cases ev with
  | rollCmd r now =>
    by_cases ho : s.openFlag
    · simp [evTokens, evTimes, roll, ho]
    · by_cases he : s.entrants.length = 0
      · simp [evTokens, evTimes, roll, ho, he]
      · simp [evTokens, evTimes, roll, ho, he]
  | rerollCmd r now =>
    by_cases he : s.entrants.length = 0
    · simp [evTokens, evTimes, reroll, he]
    · simp [evTokens, evTimes, reroll, he]
  | chat d m t => rfl
  | startCmd k => rfl
  | timer => rfl
  | cancelCmd => rfl
  | confirmCmd w now outs => rfl

theorem issuedTokens_eq_map (evs : List Ev) :
    ∀ p : ServerState × RecentMsgs, issuedTokens p evs = (rollTimes p evs).map newGid := by
  induction evs with
  | nil => intro p; rfl
  | cons ev evs ih =>
    intro p
    rw [issuedTokens, rollTimes, List.map_append, evTokens_eq_map, ih]

/-! ## The claims -/

/-- C1: for every pair (amount, token), bumping the session ledger twice
with the same dedupe token yields the same total as bumping it once
(idempotence), and bumping with two distinct fresh tokens accumulates
both amounts — so a confirm retried with the same pending-winner token
increments the session total at most once. -/
theorem sessionLedger_bump_idempotent (l : SessionLedger) (a b : Int) (t t1 t2 : String)
    (h1 : t1 ∉ l.seen) (h2 : t2 ∉ l.seen) (hne : t1 ≠ t2) :
    ((l.bump a (some t)).bump a (some t)).total = (l.bump a (some t)).total
    ∧ ((l.bump a (some t1)).bump b (some t2)).total = l.total + a + b := by
  constructor
  · by_cases hc : t ∈ l.seen
    · simp [SessionLedger.bump, hc]
    · simp [SessionLedger.bump, hc]
  · have h21 : t2 ≠ t1 := fun h => hne h.symm
    simp [SessionLedger.bump, h1, h2, h21]

/-- C1 witness: concrete instantiation on the empty ledger. -/
theorem sessionLedger_bump_idempotent_witness :
    ((({ total := 0, seen := [] } : SessionLedger).bump 5 (some "x")).bump 5
        (some "x")).total
      = (({ total := 0, seen := [] } : SessionLedger).bump 5 (some "x")).total
    ∧ ((({ total := 0, seen := [] } : SessionLedger).bump 5 (some "a")).bump 7
        (some "b")).total = 0 + 5 + 7 :=
  sessionLedger_bump_idempotent { total := 0, seen := [] } 5 7 "x" "a" "b"
    (by decide) (by decide) (by decide)

/-- C2 counterexample: with a resolvable winner and all three webhook
attempts failing, confirm throws (the failure escapes to the caller) and
performs no state transition: the returned state still carries the
pending winner and the history is untouched. -/
theorem confirm_webhook_failure_cex :
    confirm pendingS initRecent "" 9 [false, false, false] = (.thrown, pendingS)
    ∧ pendingS.pendingWinner = some { user := "alice", gid := "1" }
    ∧ pendingS.history = [] := by
  decide

/-- C2 amended: failures of individual webhook attempts are retried
inside logToSheet and do not surface when any of the three attempts
succeeds, but confirm awaits the webhook before mutating state: when all
attempts fail, logToSheet throws, the rejection escapes confirm, and the
state transition (history append, clearing the pending winner) does not
happen — the transition is blocked on the webhook outcome. -/
theorem confirm_webhook_contract (s : ServerState) (rm : RecentMsgs) (w : String)
    (now : Nat) (outs : List Bool)
    (hres : (if w ≠ "" then some w else s.pendingWinner.map (fun pw => pw.user)).isSome) :
    (logToSheetOk outs = false → confirm s rm w now outs = (.thrown, s))
    ∧ (logToSheetOk outs = true →
        (confirm s rm w now outs).1 = .ok none
        ∧ (confirm s rm w now outs).2.pendingWinner = none)
    ∧ logToSheetOk [false, false, true] = true := by
  rcases hpick : (if w ≠ "" then some w else s.pendingWinner.map (fun pw => pw.user))
    with _ | p
  · rw [hpick] at hres; simp at hres
  · refine ⟨fun hf => ?_, fun ht => ?_, by decide⟩
    · simp only [confirm, hpick, hf]
      simp
    · simp only [confirm, hpick, ht]
      simp

/-- C2 witness for the amended theorem: concrete failing run. -/
theorem confirm_webhook_contract_witness :
    confirm pendingS initRecent "" 9 [false, false, false] = (.thrown, pendingS) :=
  (confirm_webhook_contract pendingS initRecent "" 9 [false, false, false]
    (by decide)).1 (by decide)

/-- C3: over every trace of chat events and commands from the initial
state the entrant set never exceeds MAX_ENTRANTS, and a chat event from
an identity already in the entrant set always leaves it a member (it is
never dropped or rejected on capacity grounds). -/
theorem entrants_capacity_invariant :
    (∀ evs : List Ev,
      (runFull (initState, initRecent) evs).1.entrants.length ≤ MAX_ENTRANTS)
    ∧ ∀ (s : ServerState) (rm : RecentMsgs) (d m : String) (now : Nat),
        jsTrim d ∈ s.entrants → jsTrim d ∈ (handleMessage s rm d m now).1.entrants := by
  constructor
  · intro evs
    exact runFull_entrants_le evs _ (by simp [initState, MAX_ENTRANTS])
  · intro s rm d m now hmem
    unfold handleMessage
    dsimp only
    split
    · split
      · exact mem_setAdd _ _ _ hmem
      · exact hmem
    · exact hmem

/-- C3 witness: a member of a full-capacity-irrelevant concrete state
stays a member after re-offering. -/
theorem entrants_capacity_invariant_witness :
    jsTrim "alice" ∈ (handleMessage openRoundS initRecent "alice" "yo" 3).1.entrants :=
  entrants_capacity_invariant.2 openRoundS initRecent "alice" "yo" 3 (by decide)

/-- C4 counterexample: roll fails in situations the claim rules out — on
an open round with a non-empty entrant set it errors, and on an empty
entrant set it returns an error response and leaves the pending winner in
place instead of clearing it. -/
theorem roll_precondition_cex :
    ((roll openRoundS 0 3).1 = .err "Giveaway still open." ∧ openRoundS.entrants ≠ [])
    ∧ (roll { pendingS with entrants := [] } 0 3
        = (.err "No entrants.", { pendingS with entrants := [] })
      ∧ { pendingS with entrants := [] }.pendingWinner ≠ none) := by
  decide

/-- C4 amended: roll requires both a closed round and a non-empty entrant
set: while the round is open it fails with an error and no state change;
with a closed round and no entrants it fails with an error, leaving all
state (including the pending winner) unchanged; with a closed round and
entrants it always succeeds, installing the picked entrant. -/
theorem roll_behaviour (s : ServerState) (r now : Nat) :
    (s.openFlag = true → roll s r now = (.err "Giveaway still open.", s))
    ∧ (s.openFlag = false → s.entrants.length = 0 → roll s r now = (.err "No entrants.", s))
    ∧ (s.openFlag = false → s.entrants.length ≠ 0 →
        roll s r now
          = (.ok (some (s.entrants.getD (r % s.entrants.length) "")),
             { s with
               pendingWinner :=
                 some { user := s.entrants.getD (r % s.entrants.length) ""
                        gid := newGid now } })) := by
  refine ⟨fun h => ?_, fun h he => ?_, fun h he => ?_⟩
  · simp [roll, h]
  · simp [roll, h, he]
  · simp [roll, h, he]

/-- C4 witness: concrete successful roll on a closed one-entrant round. -/
theorem roll_behaviour_witness :
    roll oneEntrantS 0 3
      = (.ok (some "alice"),
         { oneEntrantS with pendingWinner := some { user := "alice", gid := "3" } }) :=
  (roll_behaviour oneEntrantS 0 3).2.2 rfl (by decide)

/-- C5 counterexample: the POST command surface of the server has no stop
route. -/
theorem no_stop_route_cex : ("/stop" : String) ∉ postRoutes := by
  decide

/-- C5 amended: the command surface exposes no stop command at all; apart
from start, the only transition that closes a round is the timer close
scheduled by start, which sets the open flag to false and, unlike the
specified stop, leaves the pending winner untouched. -/
theorem no_stop_route (s : ServerState) :
    ("/stop" : String) ∉ postRoutes
    ∧ (timerFire s).openFlag = false
    ∧ (timerFire s).pendingWinner = s.pendingWinner :=
  ⟨by decide, rfl, rfl⟩

/-- C6 counterexample: on an open round with an entrant, roll and reroll
applied to the same state with the same random index disagree — roll
fails while reroll succeeds. -/
theorem roll_reroll_differ_cex : roll openRoundS 0 3 ≠ reroll openRoundS 0 3 := by
  decide

/-- C6 amended: reroll is roll without the open-round check: on any state
with a closed round the two produce the same result and the same
successor state for the same random index (and fail under exactly the
same no-entrants condition); on an open round roll fails with an error
while reroll responds exactly as it would after the round closed. -/
theorem roll_reroll_equiv_closed (s : ServerState) (r now : Nat) :
    (s.openFlag = false → roll s r now = reroll s r now)
    ∧ (s.openFlag = true → roll s r now = (.err "Giveaway still open.", s))
    ∧ (reroll s r now).1 = (reroll (timerFire s) r now).1 := by
  refine ⟨fun h => ?_, fun h => ?_, ?_⟩
  · simp [roll, reroll, h]
  · simp [roll, h]
  · unfold reroll timerFire
    dsimp only
    by_cases he : s.entrants.length = 0 <;> simp [he]

/-- C6 witness: on a concrete closed state roll and reroll coincide. -/
theorem roll_reroll_equiv_closed_witness :
    roll oneEntrantS 0 3 = reroll oneEntrantS 0 3 :=
  (roll_reroll_equiv_closed oneEntrantS 0 3).1 rfl

/-- C7 counterexample: tokens are reused within a millisecond — after a
successful roll at time 5, a reroll at time 5 issues gid "5" again, equal
to the token already issued earlier in the trace. -/
theorem token_reuse_cex :
    issuedTokens (oneEntrantS, initRecent) [Ev.rollCmd 0 5] = ["5"]
    ∧ evTokens (runFull (oneEntrantS, initRecent) [Ev.rollCmd 0 5]).1
        (Ev.rerollCmd 0 5) = ["5"] := by
  decide

/-- C7 amended: a successful roll/reroll issues as round token the
decimal string of its Date.now() millisecond; the token differs from
every token issued by earlier successful rolls and rerolls in the trace
provided its timestamp differs from all of their timestamps (rolls in
the same millisecond reuse the token). -/
theorem token_freshness (p : ServerState × RecentMsgs) (pre : List Ev) (r now : Nat)
    (hopen : (runFull p pre).1.openFlag = false)
    (hne : (runFull p pre).1.entrants.length ≠ 0)
    (hfresh : now ∉ rollTimes p pre) :
    newGid now ∉ issuedTokens p pre
    ∧ (roll (runFull p pre).1 r now).2.pendingWinner
        = some { user := (runFull p pre).1.entrants.getD
                   (r % (runFull p pre).1.entrants.length) ""
                 gid := newGid now }
    ∧ (reroll (runFull p pre).1 r now).2.pendingWinner
        = some { user := (runFull p pre).1.entrants.getD
                   (r % (runFull p pre).1.entrants.length) ""
                 gid := newGid now } := by
  refine ⟨?_, by simp [roll, hopen, hne], by simp [reroll, hne]⟩
  intro hmem
  rw [issuedTokens_eq_map] at hmem
  rcases List.mem_map.1 hmem with ⟨t, ht, hgid⟩
  exact hfresh (newGid_inj t now hgid ▸ ht)

/-- C7 witness: first roll of a trace at time 5 issues a fresh token. -/
theorem token_freshness_witness :
    newGid 5 ∉ issuedTokens (oneEntrantS, initRecent) []
    ∧ (roll (runFull (oneEntrantS, initRecent) []).1 0 5).2.pendingWinner
        = some { user := "alice", gid := newGid 5 }
    ∧ (reroll (runFull (oneEntrantS, initRecent) []).1 0 5).2.pendingWinner
        = some { user := "alice", gid := newGid 5 } :=
  token_freshness (oneEntrantS, initRecent) [] 0 5 rfl (by decide) (by decide)

/-- C8: recording a chat line keeps the sender's buffer within
MAX_PER_USER entries, each at most MSG_KEEP_MS old, in chronological
order, with eviction only from the oldest end (the result is a suffix of
the old buffer plus the new entry); buffers of other identities are
untouched, and neither a start command nor the timer close ever touches
the store. -/
theorem messageStore_invariant (s : ServerState) (rm : RecentMsgs) (d m : String)
    (now : Nat)
    (hsort : (rm (jsTrim d)).Pairwise (fun a b => a.at_ ≤ b.at_))
    (hle : ∀ x ∈ rm (jsTrim d), x.at_ ≤ now) :
    ((handleMessage s rm d m now).2 (jsTrim d)).length ≤ MAX_PER_USER
    ∧ (∀ x ∈ (handleMessage s rm d m now).2 (jsTrim d), now - x.at_ ≤ MSG_KEEP_MS)
    ∧ ((handleMessage s rm d m now).2 (jsTrim d)).Pairwise (fun a b => a.at_ ≤ b.at_)
    ∧ (handleMessage s rm d m now).2 (jsTrim d)
        <:+ (rm (jsTrim d) ++ [{ text := jsTrim m, at_ := now }])
    ∧ (∀ u, u ≠ jsTrim d → (handleMessage s rm d m now).2 u = rm u)
    ∧ (∀ k, (stepFull (s, rm) (.startCmd k)).2 = rm)
    ∧ (stepFull (s, rm) .timer).2 = rm := by
  have hl : (handleMessage s rm d m now).2 (jsTrim d)
      = trimAge now MSG_KEEP_MS
          (trimLen MAX_PER_USER
            (rm (jsTrim d) ++ [({ text := jsTrim m, at_ := now } : Msg)])) := by
    simp [handleMessage]
  have hsort1 : List.Pairwise (fun a b => a.at_ ≤ b.at_)
      (rm (jsTrim d) ++ [({ text := jsTrim m, at_ := now } : Msg)]) :=
    pairwise_append_last _ _ hsort hle
  have hsort2 : List.Pairwise (fun a b => a.at_ ≤ b.at_)
      (trimLen MAX_PER_USER
        (rm (jsTrim d) ++ [({ text := jsTrim m, at_ := now } : Msg)])) :=
    List.Pairwise.sublist (trimLen_suffix _ _).sublist hsort1
  refine ⟨?_, ?_, ?_, ?_, ?_, fun k => rfl, rfl⟩
  · rw [hl]
    exact le_trans
      (trimAge_suffix now MSG_KEEP_MS _).length_le
      (trimLen_length_le MAX_PER_USER _)
  · rw [hl]
    exact trimAge_age now MSG_KEEP_MS _ hsort2
  · rw [hl]
    exact List.Pairwise.sublist (trimAge_suffix now MSG_KEEP_MS _).sublist hsort2
  · rw [hl]
    exact (trimAge_suffix now MSG_KEEP_MS _).trans (trimLen_suffix MAX_PER_USER _)
  · intro u hu
    simp [handleMessage, hu]

/-- C8 witness: recording a first message for a fresh identity. -/
theorem messageStore_invariant_witness :
    ((handleMessage initState initRecent "alice" "hi" 3).2 (jsTrim "alice")).length
      ≤ MAX_PER_USER :=
  (messageStore_invariant initState initRecent "alice" "hi" 3 (by decide) (by decide)).1

/-- C9: the timer close scheduled by start flips only the open flag to
false: keyword, entrants, pending winner, history and the message store
are all unchanged — in particular, the automatic close does not clear
the pending winner. -/
theorem timer_close_frame (s : ServerState) (rm : RecentMsgs) :
    (timerFire s).openFlag = false
    ∧ (timerFire s).keyword = s.keyword
    ∧ (timerFire s).entrants = s.entrants
    ∧ (timerFire s).pendingWinner = s.pendingWinner
    ∧ (timerFire s).history = s.history
    ∧ (stepFull (s, rm) .timer).2 = rm :=
  ⟨rfl, rfl, rfl, rfl, rfl, rfl⟩

theorem confirm_success_eq (s : ServerState) (rm : RecentMsgs) (w : String)
    (now : Nat) (outs : List Bool) (hw : w ≠ "") (hok : logToSheetOk outs = true) :
    confirm s rm w now outs
      = (.ok none,
         { s with
           history :=
             if (({ winner := w
                    gid := match s.pendingWinner with
                           | some pw => pw.gid
                           | none => newGid now
                    at_ := now } : HistEntry) :: s.history).length > 50
             then (({ winner := w
                      gid := match s.pendingWinner with
                             | some pw => pw.gid
                             | none => newGid now
                      at_ := now } : HistEntry) :: s.history).dropLast
             else ({ winner := w
                     gid := match s.pendingWinner with
                            | some pw => pw.gid
                            | none => newGid now
                     at_ := now } : HistEntry) :: s.history
           pendingWinner := none }) := by
  simp only [confirm]
  rw [if_pos hw]
  dsimp only
  rw [if_pos hok]

/-- C10: confirm with an explicit non-empty winner succeeds even when no
pending winner exists (tagging the history entry with a fresh gid); and
when a pending winner for a different identity exists, confirm records
the explicit winner at the head of history tagged with that pending
winner's token and clears the pending winner. -/
theorem confirm_explicit_winner (s : ServerState) (rm : RecentMsgs) (w : String)
    (now : Nat) (outs : List Bool) (hw : w ≠ "") (hok : logToSheetOk outs = true) :
    (s.pendingWinner = none →
      (confirm s rm w now outs).1 = .ok none
      ∧ (confirm s rm w now outs).2.history.head?
          = some { winner := w, gid := newGid now, at_ := now }
      ∧ (confirm s rm w now outs).2.pendingWinner = none)
    ∧ (∀ pw : PendingW, s.pendingWinner = some pw → pw.user ≠ w →
      (confirm s rm w now outs).1 = .ok none
      ∧ (confirm s rm w now outs).2.history.head?
          = some { winner := w, gid := pw.gid, at_ := now }
      ∧ (confirm s rm w now outs).2.pendingWinner = none) := by
  constructor
  · intro hp
    rw [confirm_success_eq s rm w now outs hw hok, hp]
    exact ⟨rfl, head?_cap50 _ _, rfl⟩
  · intro pw hp hu
    rw [confirm_success_eq s rm w now outs hw hok, hp]
    exact ⟨rfl, head?_cap50 _ _, rfl⟩

/-- C10 witness: explicit winner "bob" confirmed over a pending winner
for "alice" is recorded under the pending token "1". -/
theorem confirm_explicit_winner_witness :
    (confirm pendingS initRecent "bob" 9 [true]).1 = .ok none
    ∧ (confirm pendingS initRecent "bob" 9 [true]).2.history.head?
        = some { winner := "bob", gid := "1", at_ := 9 }
    ∧ (confirm pendingS initRecent "bob" 9 [true]).2.pendingWinner = none :=
  (confirm_explicit_winner pendingS initRecent "bob" 9 [true] (by decide)
    (by decide)).2 { user := "alice", gid := "1" } rfl (by decide)

end Giveaway
